import Mathlib

/-!
# A verification model of the `bencode` package (go.x2ox.com/bencode)

This file is a shallow embedding, in Lean 4, of the encoder (`encode.go`),
decoder (`decode.go`), struct-field metadata (`field.go`), helper
(`isEmptyValue`, `bytesAsString`) and error (`error.go`) code of the
repository.  Go byte strings are modelled as `List Nat` (one `Nat` per
byte), Go's reflective value universe as the inductive types `GoType` /
`GoValue` below, and the recursive encoder/decoder as fuel-indexed total
functions.  Fuel is a modelling device for Go's unbounded recursion: every
theorem either evaluates at concrete fuel or holds for all sufficient fuel.

Diagnostic byte offsets carried by the Go error values are not modelled
(they only feed error messages); error constructors mirror the distinct
error-producing call sites of the source.  The `Marshaler`/`Unmarshaler`
hooks and the `big.Int` branch are not exercised because no modelled type
implements them (none of the shapes in this development opt out of the
generic engine).
-/

/-- Bytes of an ASCII string literal, used to write byte strings readably. -/
def bs (s : String) : List Nat := s.data.map Char.toNat

/-- Go's `<` on strings: strict byte-wise lexicographic order. -/
def bytLt : List Nat → List Nat → Bool
  | [], [] => false
  | [], _ :: _ => true
  | _ :: _, [] => false
  | a :: as, b :: bl => a < b || (a == b && bytLt as bl)

/-- Reflexive closure of `bytLt`; the order used to model `sort.Sort` runs. -/
def bytLe (a b : List Nat) : Bool := a == b || bytLt a b

/-- `strings.Split(tagStr, sep)` for a one-byte separator. -/
def splitBytes (sep : Nat) : List Nat → List (List Nat)
  | [] => [[]]
  | b :: rest =>
    match splitBytes sep rest with
    | [] => [[]]
    | h :: t => if b = sep then [] :: h :: t else (b :: h) :: t

/-- `parseTag`: split the `bencode:"..."` tag value at commas. -/
def parseTag (tagStr : List Nat) : List (List Nat) := splitBytes 44 tagStr

/-- `tag.Key()`: the first comma-separated component. -/
def tagKey (t : List (List Nat)) : List Nat := t.headD []

/-- `tag.HasOpt(opt)`: membership in the components after the first. -/
def tagHasOpt (t : List (List Nat)) (opt : List Nat) : Bool :=
  (t.drop 1).any (· == opt)

/-- `tag.Ignore()`: the first component is `-`. -/
def tagIgnore (t : List (List Nat)) : Bool := tagKey t == bs "-"

/-- `tag.OmitEmpty()`. -/
def tagOmitEmpty (t : List (List Nat)) : Bool := tagHasOpt t (bs "omitempty")

mutual
/-- The Go types (reflect kinds) the engine dispatches on.  `tInt`/`tUint`
carry the width in bits (Go `int`/`uint` are 64-bit here); `tMap` is a
`map[string]elem`; `tIface` is `interface\x7b\x7d`. -/
inductive GoType where
  | tString : GoType
  | tBool : GoType
  | tInt : Nat → GoType
  | tUint : Nat → GoType
  | tSlice : GoType → GoType
  | tArray : Nat → GoType → GoType
  | tMap : GoType → GoType
  | tStruct : List GoField → GoType
  | tIface : GoType
  | tPtr : GoType → GoType

/-- One struct field: declared name, raw `bencode` tag string, whether it is
exported (`PkgPath == ""`), whether it is embedded (`Anonymous`), and its
type. -/
inductive GoField where
  | mk : List Nat → List Nat → Bool → Bool → GoType → GoField
end

def GoField.name : GoField → List Nat | .mk n _ _ _ _ => n
def GoField.tag : GoField → List Nat | .mk _ t _ _ _ => t
def GoField.exported : GoField → Bool | .mk _ _ e _ _ => e
def GoField.anonymous : GoField → Bool | .mk _ _ _ a _ => a
def GoField.ty : GoField → GoType | .mk _ _ _ _ t => t

/-- A Go value as the engine sees it through `reflect.Value`.  `none` in
`vSlice`/`vMap`/`vIface`/`vPtr` is Go `nil`.  A `vStruct` carries its field
metadata (the `reflect.Type`) next to the field values. -/
inductive GoValue where
  | vString : List Nat → GoValue
  | vBool : Bool → GoValue
  | vInt : Nat → Int → GoValue
  | vUint : Nat → Nat → GoValue
  | vSlice : GoType → Option (List GoValue) → GoValue
  | vArray : GoType → List GoValue → GoValue
  | vMap : GoType → Option (List (List Nat × GoValue)) → GoValue
  | vStruct : List GoField → List GoValue → GoValue
  | vIface : Option GoValue → GoValue
  | vPtr : GoType → Option GoValue → GoValue

mutual
/-- `reflect.Zero(t)`. -/
def zeroValue : GoType → GoValue
  | .tString => .vString []
  | .tBool => .vBool false
  | .tInt w => .vInt w 0
  | .tUint w => .vUint w 0
  | .tSlice e => .vSlice e none
  | .tArray n e => .vArray e (List.replicate n (zeroValue e))
  | .tMap e => .vMap e none
  | .tStruct fs => .vStruct fs (zeroFields fs)
  | .tIface => .vIface none
  | .tPtr e => .vPtr e none

/-- Zero values of a struct's fields, in declaration order. -/
def zeroFields : List GoField → List GoValue
  | [] => []
  | .mk _ _ _ _ t :: fs => zeroValue t :: zeroFields fs

end

mutual
/-- `isEmptyValue` (util.go): the recursive emptiness test used by
`omitempty`. -/
def isEmptyValue : GoValue → Bool
  | .vSlice _ s => s.isNone
  | .vMap _ m => m.isNone
  | .vArray _ xs => allEmpty xs
  | .vStruct _ vals => allEmpty vals
  | .vString s => s.isEmpty
  | .vBool b => !b
  | .vInt _ i => i == 0
  | .vUint _ n => n == 0
  | .vIface i => i.isNone
  | .vPtr _ p => p.isNone

/-- `z := true; for ... z = z && isEmptyValue(...)`. -/
def allEmpty : List GoValue → Bool
  | [] => true
  | v :: vs => isEmptyValue v && allEmpty vs
end

/-- Insert-or-overwrite into the association-list model of a Go map
(`m[key] = value`).  Lookup order is irrelevant in Go; what matters is that
an existing entry for the key is replaced. -/
def goMapPut (m : List (List Nat × α)) (k : List Nat) (v : α) :
    List (List Nat × α) :=
  if m.any (fun p => p.1 == k) then
    m.map (fun p => if p.1 == k then (k, v) else p)
  else m ++ [(k, v)]

/-- Go map lookup `m[key]`. -/
def goMapGet (m : List (List Nat × α)) (k : List Nat) : Option α :=
  (m.find? (fun p => p.1 == k)).map (·.2)

/-- The wire key `decodeFields` indexes a field under: first tag component,
or the field name when that component is empty. -/
def decKey (f : GoField) : List Nat :=
  let k := tagKey (parseTag f.tag)
  if k == [] then f.name else k

/-- The loop body of `decodeFields`: walk fields in declaration order,
skipping embedded fields and fields whose raw tag string is `-`, and store
`(index, field)` under the wire key with Go-map assignment. -/
def decodeFieldsAux : Nat → List GoField → List (List Nat × (Nat × GoField)) →
    List (List Nat × (Nat × GoField))
  | _, [], m => m
  | i, f :: fs, m =>
    decodeFieldsAux (i + 1) fs
      (if f.anonymous then m
       else if f.tag == bs "-" then m
       else goMapPut m (decKey f) (i, f))

/-- `decodeFields(t)`: the decoding-side wire-key index of a struct type. -/
def decodeFields (fields : List GoField) : List (List Nat × (Nat × GoField)) :=
  decodeFieldsAux 0 fields []

/-- `getStructFieldForKey(t, key)` (the cache only memoizes the pure
`decodeFields`, so the model is the lookup itself). -/
def getStructFieldForKey (fields : List GoField) (key : List Nat) :
    Option (Nat × GoField) :=
  goMapGet (decodeFields fields) key

/-- `encodeStructField`: field index, resolved wire key, omission policy. -/
structure EncField where
  i : Nat
  tag : List Nat
  omitEmpty : Bool

/-- The ordering `encodeFieldsSortType.Less` sorts by (reflexively closed). -/
def efLe (a b : EncField) : Prop := bytLe a.tag b.tag = true

instance : DecidableRel efLe := fun a b => by
  unfold efLe; infer_instance

/-- `encodeFields(t)`: keep exported, non-embedded, non-ignored fields,
resolve wire keys and `omitempty`, then sort by wire key. -/
def encodeFields (fields : List GoField) : List EncField :=
  List.insertionSort efLe
    (fields.enum.filterMap fun p =>
      let f := p.2
      if !f.exported then none
      else if f.anonymous then none
      else
        let tv := parseTag f.tag
        if tagIgnore tv then none
        else some ⟨p.1, if tagKey tv ≠ [] then tagKey tv else f.name,
                   tagOmitEmpty tv⟩)

/-- `strconv.AppendUint(..., n, 10)`: decimal digits of a natural number. -/
def natDec (n : Nat) : List Nat := (Nat.toDigits 10 n).map Char.toNat

/-- `strconv.AppendInt(..., i, 10)`. -/
def intDec (i : Int) : List Nat :=
  if i < 0 then 45 :: natDec i.natAbs else natDec i.natAbs

/-- Is `b` an ASCII decimal digit? -/
def isDigit (b : Nat) : Bool := 48 ≤ b && b ≤ 57

/-- Numeric value of a big-endian ASCII digit string. -/
def digitsVal (l : List Nat) : Nat := l.foldl (fun a d => a * 10 + (d - 48)) 0

/-- `strconv.ParseUint(s, 10, 64)`: nonempty, all digits (no sign), value
within `uint64`.  Returns the parsed value or `none` for any error. -/
def goParseUint64 (l : List Nat) : Option Nat :=
  if l.isEmpty then none
  else if !l.all isDigit then none
  else if digitsVal l ≤ 2 ^ 64 - 1 then some (digitsVal l) else none

/-- `strconv.ParseInt(s, 10, 64)`: optional single `+`/`-` sign, then a
nonempty digit string, value within `int64`. -/
def goParseInt64 (l : List Nat) : Option Int :=
  match l with
  | 43 :: rest =>
    if rest.isEmpty ∨ !rest.all isDigit then none
    else if digitsVal rest ≤ 2 ^ 63 - 1 then some (digitsVal rest) else none
  | 45 :: rest =>
    if rest.isEmpty ∨ !rest.all isDigit then none
    else if digitsVal rest ≤ 2 ^ 63 then some (-(digitsVal rest : Int)) else none
  | _ =>
    if l.isEmpty ∨ !l.all isDigit then none
    else if digitsVal l ≤ 2 ^ 63 - 1 then some (digitsVal l) else none

/-- Encoder errors (`encode.go` returns plain `error`s; constructors mirror
the distinct producing sites).  `outOfFuel` is the modelling artifact for
unbounded recursion. -/
inductive EncErr where
  | outOfFuel : EncErr
  | invalidValue : EncErr
  | unsupportedType : EncErr

/-- `v.Type().Elem().Kind() == reflect.Uint8`. -/
def isByteElem : GoType → Bool
  | .tUint 8 => true
  | _ => false

/-- A byte out of a `GoValue` known to be a `uint8` (`v.Bytes()` element). -/
def goByte : GoValue → Nat
  | .vUint _ n => n
  | _ => 0

/-- `v.Bytes()` on a `[]byte` value (`nil` gives the empty byte slice). -/
def goBytes : Option (List GoValue) → List Nat
  | none => []
  | some xs => xs.map goByte

/-- The order `newMapEncoder` sorts map keys by (`stringValues.Less`,
reflexively closed; map keys are distinct so ties cannot occur). -/
def entLe (p q : List Nat × GoValue) : Prop := bytLe p.1 q.1 = true

instance : DecidableRel entLe := fun p q => by
  unfold entLe; infer_instance

mutual
/-- Fuel bound used by `Marshal`; on maps it is invariant under reordering
of the entries. -/
def encMeasure : GoValue → Nat
  | .vString _ => 1
  | .vBool _ => 1
  | .vInt _ _ => 1
  | .vUint _ _ => 1
  | .vSlice _ none => 1
  | .vSlice _ (some xs) => encMeasureList xs + 1
  | .vArray _ xs => encMeasureList xs + 1
  | .vMap _ none => 1
  | .vMap _ (some l) => encMeasureEntries l + 1
  | .vStruct _ vals => encMeasureList vals + 1
  | .vIface none => 1
  | .vIface (some v) => encMeasure v + 1
  | .vPtr e none => tMeasure e + 1
  | .vPtr _ (some v) => encMeasure v + 1

/-- Sum of element measures. -/
def encMeasureList : List GoValue → Nat
  | [] => 0
  | v :: vs => encMeasure v + 1 + encMeasureList vs

/-- Sum of entry-value measures. -/
def encMeasureEntries : List (List Nat × GoValue) → Nat
  | [] => 0
  | (_, v) :: ps => encMeasure v + 1 + encMeasureEntries ps

/-- Fuel bound for encoding the zero value of a type (`newPtrEncoder` on a
nil pointer encodes `reflect.Zero(elem)`). -/
def tMeasure : GoType → Nat
  | .tString => 1
  | .tBool => 1
  | .tInt _ => 1
  | .tUint _ => 1
  | .tSlice _ => 1
  | .tArray n e => n * (tMeasure e + 1) + 1
  | .tMap _ => 1
  | .tStruct fs => tMeasureFields fs + 1
  | .tIface => 1
  | .tPtr e => tMeasure e + 1

/-- Sum of field-type measures. -/
def tMeasureFields : List GoField → Nat
  | [] => 0
  | .mk _ _ _ _ t :: fs => tMeasure t + 1 + tMeasureFields fs
end

mutual
/-- The type-directed encoder: `newTypeEncoder`'s strategy selectionfused
with the per-strategy writers.  Output is the byte list written to the
`encodeState` buffer. -/
def encodeValue : Nat → GoValue → Except EncErr (List Nat)
  | 0, _ => .error .outOfFuel
  | f + 1, v =>
    match v with
    | .vBool b => .ok (if b then bs "i1e" else bs "i0e")
    | .vInt _ i => .ok (105 :: (intDec i ++ [101]))
    | .vUint _ n => .ok (105 :: (natDec n ++ [101]))
    | .vString s => .ok (natDec s.length ++ 58 :: s)
    | .vIface none => .error .invalidValue
    | .vIface (some x) => encodeValue f x
    | .vStruct fields vals =>
      (match encodeSFields f (encodeFields fields) vals with
       | .ok body => .ok (100 :: (body ++ [101]))
       | .error e => .error e)
    | .vMap _ none => .ok (bs "de")
    | .vMap _ (some entries) =>
      (match encodeEntries f (List.insertionSort entLe entries) with
       | .ok body => .ok (100 :: (body ++ [101]))
       | .error e => .error e)
    | .vSlice e xs =>
      if isByteElem e then
        let s := goBytes xs
        .ok (natDec s.length ++ 58 :: s)
      else
        match xs with
        | none => .ok (bs "le")
        | some l =>
          (match encodeElems f l with
           | .ok body => .ok (108 :: (body ++ [101]))
           | .error e => .error e)
    | .vArray _ xs =>
      (match encodeElems f xs with
       | .ok body => .ok (108 :: (body ++ [101]))
       | .error e => .error e)
    | .vPtr e none => encodeValue f (zeroValue e)
    | .vPtr _ (some x) => encodeValue f x

/-- `newStructEncoder`'s loop over `cachedTypeFields`: skip an
`omitempty` field whose value is empty, else write `<keylen>:<key>` and the
encoded field value. -/
def encodeSFields : Nat → List EncField → List GoValue → Except EncErr (List Nat)
  | 0, _, _ => .error .outOfFuel
  | _ + 1, [], _ => .ok []
  | f + 1, ef :: efs, vals =>
    let fv := vals.getD ef.i (.vBool false)
    if ef.omitEmpty && isEmptyValue fv then encodeSFields f efs vals
    else
      match encodeValue f fv with
      | .error e => .error e
      | .ok vb =>
        match encodeSFields f efs vals with
        | .error e => .error e
        | .ok rest => .ok ((natDec ef.tag.length ++ 58 :: ef.tag) ++ (vb ++ rest))

/-- `newMapEncoder`'s loop over the sorted keys: `stringEncoder` on the key,
then the encoded value. -/
def encodeEntries : Nat → List (List Nat × GoValue) → Except EncErr (List Nat)
  | 0, _ => .error .outOfFuel
  | _ + 1, [] => .ok []
  | f + 1, (k, v) :: ps =>
    match encodeValue f v with
    | .error e => .error e
    | .ok vb =>
      match encodeEntries f ps with
      | .error e => .error e
      | .ok rest => .ok ((natDec k.length ++ 58 :: k) ++ (vb ++ rest))

/-- `newArrayEncoder`'s element loop. -/
def encodeElems : Nat → List GoValue → Except EncErr (List Nat)
  | 0, _ => .error .outOfFuel
  | _ + 1, [] => .ok []
  | f + 1, x :: xs =>
    match encodeValue f x with
    | .error e => .error e
    | .ok b =>
      match encodeElems f xs with
      | .error e => .error e
      | .ok rest => .ok (b ++ rest)
end

/-- `Marshal`: encode one value (`e.marshal`/`reflectValue`).  The fuel
`encMeasure v` is a modelling device; it is invariant under map-entry
reordering. -/
def Marshal (v : GoValue) : Except EncErr (List Nat) :=
  encodeValue (encMeasure v) v

/-- Decoder errors, one constructor per distinct error-producing site of
`decode.go`/`error.go` (diagnostic offsets and message text are not
modelled; `outOfFuel` is the fuel artifact). -/
inductive BErr where
  | outOfFuel : BErr
  | syntaxEOF : BErr
  | eofError : BErr
  | strconvError : BErr
  | negLength : BErr
  | unknownValueType : Nat → BErr
  | cannotUnmarshal : BErr
  | unknownType : BErr
  | unknownField : BErr
  | missingValue : List Nat → BErr
  | parseFieldError : List Nat → BErr → BErr
  | reflectUnaddressable : BErr
  | syntaxUnexpectedE : BErr

/-- `readUntil(sep)`: consume bytes up to and including the separator,
returning the bytes before it; EOF panics a syntax error. -/
def readUntil (sep : Nat) : List Nat → Except BErr (List Nat × List Nat)
  | [] => .error .syntaxEOF
  | b :: rest =>
    if b = sep then .ok ([], rest)
    else
      match readUntil sep rest with
      | .ok (a, r) => .ok (b :: a, r)
      | .error e => .error e

/-- Current elements of an array value (`v.Index(i)` slots). -/
def arrElems : GoValue → List GoValue
  | .vArray _ xs => xs
  | _ => []

/-- `reflect.Copy(v, reflect.ValueOf(b))`: overwrite the first
`min(len(v), len(b))` slots, keep the rest. -/
def arrayCopy (old : List GoValue) (b : List Nat) : List GoValue :=
  (b.take old.length).map (fun x => .vUint 8 x) ++ old.drop (min old.length b.length)

/-- The value a pointer target dereferences to: `v.Elem()`, after
`v.Set(reflect.New(...))` when nil. -/
def ptrElemValue (e : GoType) : GoValue → GoValue
  | .vPtr _ (some i) => i
  | _ => zeroValue e

/-- Bytes of a string value. -/
def stringBytes : GoValue → List Nat
  | .vString b => b
  | _ => []

/-- Entries of a map value (`none` when nil). -/
def mapEntriesOf : GoValue → Option (List (List Nat × GoValue))
  | .vMap _ m => m
  | _ => none

/-- Field values of a struct value. -/
def structValsOf : GoValue → List GoValue
  | .vStruct _ vs => vs
  | _ => []

/-- `v.FieldByIndex(...).Set(val)`: replace field `i`. -/
def setStructVal (cur : GoValue) (i : Nat) (v : GoValue) : GoValue :=
  match cur with
  | .vStruct fs vs => .vStruct fs (vs.set i v)
  | other => other

/-- `parseInteger`: read the decimal payload up to `e`, then store it
according to the target's kind.  (The `big.Int` branch is not modelled: no
modelled type is `big.Int`.) -/
def parseInteger (t : GoType) (_cur : GoValue) (s : List Nat) :
    Except BErr (GoValue × List Nat) :=
  match readUntil 101 s with
  | .error e => .error e
  | .ok (payload, rest) =>
    match t with
    | .tIface =>
      match goParseInt64 payload with
      | none => .error .cannotUnmarshal
      | some n => .ok (.vIface (some (.vInt 64 n)), rest)
    | .tInt w =>
      match goParseInt64 payload with
      | none => .error .cannotUnmarshal
      | some n =>
        if n < -((2 : Int) ^ (w - 1)) ∨ (2 : Int) ^ (w - 1) ≤ n then
          .error .cannotUnmarshal
        else .ok (.vInt w n, rest)
    | .tUint w =>
      match goParseUint64 payload with
      | none => .error .cannotUnmarshal
      | some n =>
        if 2 ^ w ≤ n then .error .cannotUnmarshal
        else .ok (.vUint w n, rest)
    | .tBool => .ok (.vBool (!(payload == [48])), rest)
    | _ => .error .unknownType

/-- `parseByteString`: read the decimal length up to `:`, read that many raw
bytes, and assign per target kind (string / `[]byte` / byte array via
`reflect.Copy` / dynamic as text). -/
def parseByteString (t : GoType) (cur : GoValue) (s : List Nat) :
    Except BErr (GoValue × List Nat) :=
  match readUntil 58 s with
  | .error e => .error e
  | .ok (lenB, rest1) =>
    match goParseInt64 lenB with
    | none => .error .strconvError
    | some L =>
      if L < 0 then .error .negLength
      else if rest1.length < L.toNat then .error .eofError
      else
        let b := rest1.take L.toNat
        let rest := rest1.drop L.toNat
        match t with
        | .tString => .ok (.vString b, rest)
        | .tSlice e =>
          if isByteElem e then .ok (.vSlice e (some (b.map (.vUint 8 ·))), rest)
          else .error .cannotUnmarshal
        | .tArray _ e =>
          if isByteElem e then .ok (.vArray e (arrayCopy (arrElems cur) b), rest)
          else .error .cannotUnmarshal
        | .tIface => .ok (.vIface (some (.vString b)), rest)
        | _ => .error .cannotUnmarshal

mutual
/-- `parseValue`: allocate/deref a pointer target, then read one byte and
dispatch.  The `Bool` is Go's first return: `false` means the byte was the
`e` terminator of the enclosing container.  Every mutual call decrements
the fuel once, so fuel is a bound on call depth, not on bytes. -/
def parseValue : Nat → GoType → GoValue → List Nat → Except BErr (Bool × GoValue × List Nat)
  | 0, _, _, _ => .error .outOfFuel
  | f + 1, .tPtr e, cur, s =>
    (match parseValueB f e (ptrElemValue e cur) s with
     | .ok (ok, v1, rest) => .ok (ok, .vPtr e (some v1), rest)
     | .error er => .error er)
  | f + 1, t, cur, s => parseValueB f t cur s

/-- The byte-dispatch part of `parseValue`. -/
def parseValueB : Nat → GoType → GoValue → List Nat → Except BErr (Bool × GoValue × List Nat)
  | 0, _, _, _ => .error .outOfFuel
  | f + 1, t, cur, s =>
    match s with
    | [] => .error .syntaxEOF
    | b :: rest =>
      if b = 101 then .ok (false, cur, rest)
      else if b = 100 then
        (match parseDict f t cur rest with
         | .ok (v, r) => .ok (true, v, r)
         | .error e => .error e)
      else if b = 108 then
        (match parseList f t cur rest with
         | .ok (v, r) => .ok (true, v, r)
         | .error e => .error e)
      else if b = 105 then
        (match parseInteger t cur rest with
         | .ok (v, r) => .ok (true, v, r)
         | .error e => .error e)
      else if isDigit b then
        (match parseByteString t cur (b :: rest) with
         | .ok (v, r) => .ok (true, v, r)
         | .error e => .error e)
      else .error (.unknownValueType b)

/-- `parseDict`: an `interface\x7b\x7d` target is retargeted at a fresh nil
`map[string]interface\x7b\x7d` reached through `v.Elem()`, which is not
addressable — its first insertion panics in reflect (modelled by the
`canSet` flag). -/
def parseDict : Nat → GoType → GoValue → List Nat → Except BErr (GoValue × List Nat)
  | 0, _, _, _ => .error .outOfFuel
  | f + 1, .tIface, _, s =>
    (match parseDictLoop f false (.tMap .tIface) (.vMap .tIface none) s with
     | .ok (m, rest) => .ok (.vIface (some m), rest)
     | .error e => .error e)
  | f + 1, t, cur, s => parseDictLoop f true t cur s

/-- `parseList`: slices restart from an empty slice; arrays fill their
existing slots; an `interface\x7b\x7d` target panics in reflect on the
unaddressable `v.Elem()` (first statement of the slice case); any other
kind falls through the switch and returns immediately without reading. -/
def parseList : Nat → GoType → GoValue → List Nat → Except BErr (GoValue × List Nat)
  | 0, _, _, _ => .error .outOfFuel
  | f + 1, .tSlice e, _, s =>
    (match parseListSlice f e [] s with
     | .ok (xs, rest) => .ok (.vSlice e (some xs), rest)
     | .error er => .error er)
  | f + 1, .tArray _ e, cur, s =>
    (match parseListArray f e (arrElems cur) s with
     | .ok (xs, rest) => .ok (.vArray e xs, rest)
     | .error er => .error er)
  | _ + 1, .tIface, _, _ => .error .reflectUnaddressable
  | _ + 1, _, cur, s => .ok (cur, s)

/-- The slice loop of `parseList`: append a zero slot, parse into it, and —
as written in the source — `break` when a value was parsed (`end` true),
continue looping when the `e` terminator was seen. -/
def parseListSlice : Nat → GoType → List GoValue → List Nat → Except BErr (List GoValue × List Nat)
  | 0, _, _, _ => .error .outOfFuel
  | f + 1, e, xs, s =>
    match parseValue f e (zeroValue e) s with
    | .error er => .error er
    | .ok (ok, v1, rest) =>
      if ok then .ok (xs ++ [v1], rest)
      else parseListSlice f e (xs ++ [v1]) rest

/-- The array loop of `parseList`: parse into every slot in order, zeroing a
slot when the terminator was seen (and keep looping, as the source does). -/
def parseListArray : Nat → GoType → List GoValue → List Nat → Except BErr (List GoValue × List Nat)
  | 0, _, _, _ => .error .outOfFuel
  | _ + 1, _, [], s => .ok ([], s)
  | f + 1, e, o :: os, s =>
    match parseValue f e o s with
    | .error er => .error er
    | .ok (ok, v1, rest) =>
      match parseListArray f e os rest with
      | .error er => .error er
      | .ok (vs, rest1) => .ok ((if ok then v1 else zeroValue e) :: vs, rest1)

/-- The key/value loop of `parseDict`: parse a key into a fresh string; on
terminator stop; dispatch on the target kind (map insert with lazy make,
struct field lookup through the metadata cache, silent skip otherwise). -/
def parseDictLoop : Nat → Bool → GoType → GoValue → List Nat → Except BErr (GoValue × List Nat)
  | 0, _, _, _, _ => .error .outOfFuel
  | f + 1, canSet, t, cur, s =>
    match parseValue f .tString (.vString []) s with
    | .error er => .error er
    | .ok (okK, kv, rest1) =>
      if !okK then .ok (cur, rest1)
      else
        let key := stringBytes kv
        match t with
        | .tMap e =>
          (match parseValue f e (zeroValue e) rest1 with
           | .error er => .error (.parseFieldError key er)
           | .ok (okV, val, rest2) =>
             if !okV then .error (.missingValue key)
             else
               match mapEntriesOf cur with
               | none =>
                 if canSet then
                   parseDictLoop f canSet t (.vMap e (some (goMapPut [] key val))) rest2
                 else .error .reflectUnaddressable
               | some m =>
                 parseDictLoop f canSet t (.vMap e (some (goMapPut m key val))) rest2)
        | .tStruct fields =>
          (match getStructFieldForKey fields key with
           | none => .error .unknownField
           | some (i, sf) =>
             if !sf.exported then .error .unknownField
             else
               match parseValue f sf.ty ((structValsOf cur).getD i (.vBool false)) rest1 with
               | .error er => .error (.parseFieldError key er)
               | .ok (okV, val, rest2) =>
                 if !okV then .error (.missingValue key)
                 else parseDictLoop f canSet t (setStructVal cur i val) rest2)
        | _ => parseDictLoop f canSet t cur rest1
end

/-- `Unmarshal` into a fresh zero target of type `t` (the caller's
`&v2`).  A leading terminator byte at the outermost call is the
"unexpected `e`" syntax error; trailing bytes are ignored.  The fuel
`4 * length + 8` is monotone in the input length and suffices for every
input the decoder can actually consume (at most four mutual calls separate
consecutive byte reads). -/
def unmarshal (data : List Nat) (t : GoType) : Except BErr GoValue :=
  match parseValue (4 * data.length + 8) t (zeroValue t) data with
  | .error e => .error e
  | .ok (ok, v, _) => if ok then .ok v else .error .syntaxUnexpectedE

theorem bytLt_irrefl : ∀ a : List Nat, bytLt a a = false := by
  intro a
  induction a with
  | nil => rfl
  | cons x xs ih => simp [bytLt, ih]

theorem bytLt_trans : ∀ {a b c : List Nat},
    bytLt a b = true → bytLt b c = true → bytLt a c = true := by
  intro a
  induction a with
  | nil =>
    intro b c hab hbc
    cases b <;> cases c <;> simp_all [bytLt]
  | cons x xs ih =>
    intro b c hab hbc
    cases b with
    | nil => simp [bytLt] at hab
    | cons y ys =>
      cases c with
      | nil => simp [bytLt] at hbc
      | cons z zs =>
        simp only [bytLt, Bool.or_eq_true, Bool.and_eq_true, beq_iff_eq,
          decide_eq_true_eq] at hab hbc ⊢
        rcases hab with h1 | ⟨he1, h1⟩ <;> rcases hbc with h2 | ⟨he2, h2⟩
        · exact Or.inl (Nat.lt_trans h1 h2)
        · exact Or.inl (he2 ▸ h1)
        · exact Or.inl (he1 ▸ h2)
        · exact Or.inr ⟨he1.trans he2, ih h1 h2⟩

theorem bytLt_asymm : ∀ {a b : List Nat}, bytLt a b = true → bytLt b a = false := by
  intro a b h
  by_contra hc
  have hba : bytLt b a = true := by
    cases hh : bytLt b a
    · exact absurd hh hc
    · rfl
  have := bytLt_trans h hba
  rw [bytLt_irrefl] at this
  exact Bool.false_ne_true this

theorem bytLt_trichotomy : ∀ a b : List Nat,
    bytLt a b = true ∨ a = b ∨ bytLt b a = true := by
  intro a
  induction a with
  | nil => intro b; cases b <;> simp [bytLt]
  | cons x xs ih =>
    intro b
    cases b with
    | nil => simp [bytLt]
    | cons y ys =>
      rcases Nat.lt_trichotomy x y with h | h | h
      · exact Or.inl (by simp [bytLt, h])
      · subst h
        rcases ih ys with h2 | h2 | h2
        · exact Or.inl (by simp [bytLt, h2])
        · exact Or.inr (Or.inl (by rw [h2]))
        · exact Or.inr (Or.inr (by simp [bytLt, h2]))
      · exact Or.inr (Or.inr (by simp [bytLt, h]))

theorem bytLe_of_ne_of_le {a b : List Nat} (h : bytLe a b = true) (hne : a ≠ b) :
    bytLt a b = true := by
  simp only [bytLe, Bool.or_eq_true, beq_iff_eq] at h
  exact h.resolve_left hne

theorem bytLe_total : ∀ a b : List Nat, bytLe a b = true ∨ bytLe b a = true := by
  intro a b
  rcases bytLt_trichotomy a b with h | h | h
  · exact Or.inl (by simp [bytLe, h])
  · exact Or.inl (by simp [bytLe, h])
  · exact Or.inr (by simp [bytLe, h])

theorem bytLe_trans : ∀ {a b c : List Nat},
    bytLe a b = true → bytLe b c = true → bytLe a c = true := by
  intro a b c hab hbc
  simp only [bytLe, Bool.or_eq_true, beq_iff_eq] at hab hbc ⊢
  rcases hab with rfl | hab
  · exact hbc
  · rcases hbc with rfl | hbc
    · exact Or.inr hab
    · exact Or.inr (bytLt_trans hab hbc)

instance : IsTotal (List Nat × GoValue) entLe := ⟨fun p q => bytLe_total p.1 q.1⟩

instance : IsTrans (List Nat × GoValue) entLe := ⟨fun _ _ _ => bytLe_trans⟩

instance : IsTotal EncField efLe := ⟨fun p q => bytLe_total p.tag q.tag⟩

instance : IsTrans EncField efLe := ⟨fun _ _ _ => bytLe_trans⟩

/-- Strict map-entry key order, used only to show sorted entry lists with
distinct keys are unique. -/
def entKeyLt (p q : List Nat × GoValue) : Prop := bytLt p.1 q.1 = true

instance : IsAntisymm (List Nat × GoValue) entKeyLt :=
  ⟨fun _ _ h h1 => by
    have := bytLt_asymm (a := _) h
    rw [h1] at this
    exact absurd this (by simp)⟩

theorem sorted_entKeyLt_of_sorted_nodup {l : List (List Nat × GoValue)}
    (hs : List.Sorted entLe l) (hn : (l.map Prod.fst).Nodup) :
    List.Sorted entKeyLt l := by
  have hp : List.Pairwise (fun p q : List Nat × GoValue => p.1 ≠ q.1) l := by
    rw [List.Nodup, List.pairwise_map] at hn
    exact hn
  exact (hs.and hp).imp (fun h => bytLe_of_ne_of_le h.1 h.2)

/-- Two permuted entry lists with the same (distinct) keys sort to the same
list: `newMapEncoder`'s output does not depend on map iteration order. -/
theorem insertionSort_entries_eq {l1 l2 : List (List Nat × GoValue)}
    (hp : l1.Perm l2) (hn : (l1.map Prod.fst).Nodup) :
    List.insertionSort entLe l1 = List.insertionSort entLe l2 := by
  have hperm : (List.insertionSort entLe l1).Perm (List.insertionSort entLe l2) :=
    (List.perm_insertionSort entLe l1).trans
      (hp.trans (List.perm_insertionSort entLe l2).symm)
  have hn2 : (l2.map Prod.fst).Nodup := ((hp.map Prod.fst).nodup_iff).mp hn
  have hs1 : List.Sorted entKeyLt (List.insertionSort entLe l1) :=
    sorted_entKeyLt_of_sorted_nodup (List.sorted_insertionSort entLe l1)
      (((List.perm_insertionSort entLe l1).map Prod.fst).nodup_iff.mpr hn)
  have hs2 : List.Sorted entKeyLt (List.insertionSort entLe l2) :=
    sorted_entKeyLt_of_sorted_nodup (List.sorted_insertionSort entLe l2)
      (((List.perm_insertionSort entLe l2).map Prod.fst).nodup_iff.mpr hn2)
  exact List.eq_of_perm_of_sorted hperm hs1 hs2

theorem encMeasureEntries_perm {l1 l2 : List (List Nat × GoValue)}
    (hp : l1.Perm l2) : encMeasureEntries l1 = encMeasureEntries l2 := by
  induction hp with
  | nil => rfl
  | cons p _ ih =>
    cases p with
    | mk k v => simp [encMeasureEntries, ih]
  | swap p q _ =>
    cases p with
    | mk k v =>
      cases q with
      | mk k2 v2 => simp [encMeasureEntries]; omega
  | trans _ _ ih1 ih2 => exact ih1.trans ih2

/-- C2 (counterexample): the claim's "strictly ascending" fails on a
named-record in which two fields carry the same wire key `x` — the encoder
emits the key sequence `x, x`, which is not strictly ascending. -/
theorem c2_struct_dup_key_not_strict :
    Marshal (.vStruct
      [.mk (bs "A") (bs "x") true false (.tInt 64),
       .mk (bs "B") (bs "x") true false (.tInt 64)]
      [.vInt 64 0, .vInt 64 0]) = .ok (bs "d1:xi0e1:xi0ee") ∧
    (encodeFields
      [.mk (bs "A") (bs "x") true false (.tInt 64),
       .mk (bs "B") (bs "x") true false (.tInt 64)]).map EncField.tag =
      [bs "x", bs "x"] ∧
    ¬ List.Pairwise (fun a b => bytLt a b = true)
      ((encodeFields
        [.mk (bs "A") (bs "x") true false (.tInt 64),
         .mk (bs "B") (bs "x") true false (.tInt 64)]).map EncField.tag) :=
  ⟨rfl, by decide, by decide⟩

/-- C2 (amended): map encoding is deterministic — independent of entry
order — and emits keys in strictly ascending byte order (map keys are
distinct); named-record encoding emits keys in nondecreasing byte order,
strictly ascending whenever the record's wire keys are pairwise distinct;
and `Marshal(map[string]int(a:1, b:2))` is exactly `d1:ai1e1:bi2ee`. -/
theorem c2_canonical_encoding :
    (∀ (e : GoType) (l1 l2 : List (List Nat × GoValue)), l1.Perm l2 →
      (l1.map Prod.fst).Nodup →
      Marshal (.vMap e (some l1)) = Marshal (.vMap e (some l2))) ∧
    (∀ (l : List (List Nat × GoValue)), (l.map Prod.fst).Nodup →
      List.Pairwise (fun a b => bytLt a b = true)
        ((List.insertionSort entLe l).map Prod.fst)) ∧
    (∀ fs : List GoField,
      List.Pairwise (fun a b => bytLe a b = true)
        ((encodeFields fs).map EncField.tag)) ∧
    (∀ fs : List GoField, ((encodeFields fs).map EncField.tag).Nodup →
      List.Pairwise (fun a b => bytLt a b = true)
        ((encodeFields fs).map EncField.tag)) ∧
    Marshal (.vMap (.tInt 64) (some [(bs "a", .vInt 64 1), (bs "b", .vInt 64 2)])) =
      .ok (bs "d1:ai1e1:bi2ee") := by
  refine ⟨?_, ?_, ?_, ?_, rfl⟩
  · intro e l1 l2 hp hn
    show encodeValue (encMeasure (.vMap e (some l1))) (.vMap e (some l1)) = _
    have hm : encMeasure (.vMap e (some l1)) = encMeasure (.vMap e (some l2)) := by
      simp [encMeasure, encMeasureEntries_perm hp]
    rw [hm]
    have hs := insertionSort_entries_eq hp hn
    show encodeValue (encMeasure (.vMap e (some l2))) (.vMap e (some l1)) =
      encodeValue (encMeasure (.vMap e (some l2))) (.vMap e (some l2))
    cases hF : encMeasure (.vMap e (some l2)) with
    | zero => rfl
    | succ f => simp only [encodeValue, hs]
  · intro l hn
    have hs : List.Sorted entKeyLt (List.insertionSort entLe l) :=
      sorted_entKeyLt_of_sorted_nodup (List.sorted_insertionSort entLe l)
        (((List.perm_insertionSort entLe l).map Prod.fst).nodup_iff.mpr hn)
    exact List.pairwise_map.mpr hs
  · intro fs
    have hs : List.Sorted efLe (encodeFields fs) := by
      unfold encodeFields
      exact List.sorted_insertionSort efLe _
    exact List.pairwise_map.mpr hs
  · intro fs hn
    have hs : List.Sorted efLe (encodeFields fs) := by
      unfold encodeFields
      exact List.sorted_insertionSort efLe _
    have hp : List.Pairwise (fun a b : EncField => a.tag ≠ b.tag) (encodeFields fs) := by
      rw [List.Nodup, List.pairwise_map] at hn
      exact hn
    exact List.pairwise_map.mpr ((hs.and hp).imp fun h => bytLe_of_ne_of_le h.1 h.2)

/-- C2 (witness): the determinism conjunct applied to the two orderings of
the two-entry map. -/
theorem c2_canonical_encoding_witness :
    Marshal (.vMap (.tInt 64) (some [(bs "b", .vInt 64 2), (bs "a", .vInt 64 1)])) =
      Marshal (.vMap (.tInt 64) (some [(bs "a", .vInt 64 1), (bs "b", .vInt 64 2)])) :=
  c2_canonical_encoding.1 (.tInt 64) _ _
    (List.Perm.swap (bs "a", GoValue.vInt 64 1) (bs "b", GoValue.vInt 64 2) [])
    (by decide)

theorem goMapGet_mapReplace (m : List (List Nat × α)) (k k2 : List Nat) (v : α) :
    goMapGet (m.map (fun p => if p.1 == k then (k, v) else p)) k2 =
      if k2 = k then (if m.any (fun p => p.1 == k) then some v else none)
      else goMapGet m k2 := by
  induction m with
  | nil => by_cases h : k2 = k <;> simp [goMapGet, h]
  | cons p m ih =>
    by_cases hpk : p.1 = k
    · by_cases hk2 : k2 = k
      · subst hk2
        unfold goMapGet
        rw [List.map_cons, if_pos (by simp [hpk]),
          List.find?_cons_of_pos _ (by simp)]
        simp [hpk]
      · have hkk2 : ¬k = k2 := fun h => hk2 h.symm
        have hpk2 : ¬p.1 = k2 := fun h => hk2 (h.symm.trans hpk)
        unfold goMapGet
        rw [List.map_cons, if_pos (by simp [hpk]),
          List.find?_cons_of_neg _ (by simp [hkk2]),
          List.find?_cons_of_neg _ (by simp [hpk2])]
        have := ih
        unfold goMapGet at this
        rw [this, if_neg hk2, if_neg hk2]
    · unfold goMapGet
      rw [List.map_cons, if_neg (by simp [hpk])]
      by_cases hp2 : p.1 = k2
      · rw [List.find?_cons_of_pos _ (by simp [hp2]),
          List.find?_cons_of_pos _ (by simp [hp2])]
        rw [if_neg (fun h => hpk (hp2.trans h))]
      · rw [List.find?_cons_of_neg _ (by simp [hp2]),
          List.find?_cons_of_neg _ (by simp [hp2])]
        have := ih
        unfold goMapGet at this
        rw [this]
        by_cases hk2 : k2 = k
        · rw [if_pos hk2, if_pos hk2, List.any_cons,
            beq_eq_false_iff_ne.mpr hpk, Bool.false_or]
        · rw [if_neg hk2, if_neg hk2]

theorem goMapGet_put (m : List (List Nat × α)) (k k2 : List Nat) (v : α) :
    goMapGet (goMapPut m k v) k2 = if k2 = k then some v else goMapGet m k2 := by
  unfold goMapPut
  by_cases hany : m.any (fun p => p.1 == k) = true
  · rw [if_pos hany, goMapGet_mapReplace, hany]
    by_cases hk2 : k2 = k
    · rw [if_pos hk2, if_pos hk2]
      rfl
    · rw [if_neg hk2, if_neg hk2]
  · rw [if_neg hany]
    unfold goMapGet
    rw [List.find?_append]
    by_cases hk2 : k2 = k
    · subst hk2
      have hnone : m.find? (fun p => p.1 == k2) = none := by
        rw [List.find?_eq_none]
        intro p hp
        simp only [List.any_eq_true] at hany
        simp only [beq_iff_eq]
        intro hcontra
        exact hany ⟨p, hp, by simp [hcontra]⟩
      rw [hnone, if_pos rfl]
      simp [List.find?]
    · cases hfm : m.find? (fun p => p.1 == k2) with
      | some r => simp [hk2]
      | none =>
        rw [if_neg hk2]
        have hb : (k == k2) = false := beq_eq_false_iff_ne.mpr fun h => hk2 h.symm
        simp [List.find?, hb]

/-- Eligibility of an indexed field for the decoding index: not embedded,
raw tag not `-`, wire key equal to the probed key. -/
def decEligible (key : List Nat) (p : Nat × GoField) : Bool :=
  !p.2.anonymous && !(p.2.tag == bs "-") && (decKey p.2 == key)

/-- First-some choice, spelling out `Option.orElse` to keep rewriting
simple. -/
def olast (o d : Option α) : Option α :=
  match o with
  | some r => some r
  | none => d

theorem decodeFieldsAux_get (key : List Nat) :
    ∀ (fs : List GoField) (i : Nat) (m : List (List Nat × (Nat × GoField))),
    goMapGet (decodeFieldsAux i fs m) key =
      olast (((List.enumFrom i fs).filter (decEligible key)).getLast?)
        (goMapGet m key) := by
  intro fs
  induction fs with
  | nil => intro i m; rfl
  | cons f fs ih =>
    intro i m
    rw [decodeFieldsAux, ih]
    have henum : List.enumFrom i (f :: fs) = (i, f) :: List.enumFrom (i + 1) fs := rfl
    rw [henum, List.filter_cons]
    by_cases helig : decEligible key (i, f) = true
    · rw [if_pos helig]
      have hmn : goMapGet
          (if f.anonymous = true then m
           else if (f.tag == bs "-") = true then m
           else goMapPut m (decKey f) (i, f)) key = some (i, f) := by
        simp only [decEligible, Bool.and_eq_true, Bool.not_eq_true',
          beq_iff_eq] at helig
        rw [if_neg (by simp [helig.1.1]), if_neg (by simp [helig.1.2]),
          helig.2, goMapGet_put, if_pos rfl]
      rw [hmn]
      cases hfl : (List.enumFrom (i + 1) fs).filter (decEligible key) with
      | nil => rfl
      | cons q qs =>
        rw [List.getLast?_cons_cons]
        cases hlast : (q :: qs).getLast? with
        | some r => rfl
        | none =>
          exact absurd hlast (by
            cases qs with
            | nil => simp [List.getLast?]
            | cons q2 qs2 =>
              rw [List.getLast?_cons_cons]
              cases hq : (q2 :: qs2).getLast? with
              | some r => simp
              | none =>
                exact absurd (List.getLast?_eq_none_iff.mp hq) (by simp))
    · rw [if_neg helig]
      have hmn : goMapGet
          (if f.anonymous = true then m
           else if (f.tag == bs "-") = true then m
           else goMapPut m (decKey f) (i, f)) key = goMapGet m key := by
        by_cases ha : f.anonymous = true
        · rw [if_pos ha]
        · rw [if_neg ha]
          by_cases ht : (f.tag == bs "-") = true
          · rw [if_pos ht]
          · rw [if_neg ht]
            have hdk : decKey f ≠ key := fun hc =>
              helig (by simp [decEligible, ha, ht, hc])
            rw [goMapGet_put, if_neg (fun h => hdk h.symm)]
      rw [hmn]

/-- C5 (amended): for a named-record shape, the decoding-side lookup
resolves a wire key to the **last** declared eligible slot with that key
(Go map assignment overwrites): `getStructFieldForKey` equals `getLast?`
of the eligible `(index, field)` pairs in declaration order. -/
theorem c5_lookup_last_declared_wins (fields : List GoField) (key : List Nat) :
    getStructFieldForKey fields key =
      ((fields.enum.filter (decEligible key)).getLast?) := by
  rw [getStructFieldForKey, decodeFields, decodeFieldsAux_get, List.enum]
  cases ((List.enumFrom 0 fields).filter (decEligible key)).getLast? <;> rfl

/-- C5 (counterexample): with exported fields `A` (index 0) and `B`
(index 1) both carrying wire key `x`, the lookup yields index 1 — the last
declared slot, not the first; decoding `d1:xi7ee` accordingly stores 7 into
`B` and leaves `A` zero. -/
theorem c5_first_declared_loses :
    (getStructFieldForKey
      [.mk (bs "A") (bs "x") true false (.tInt 64),
       .mk (bs "B") (bs "x") true false (.tInt 64)] (bs "x")).map Prod.fst =
      some 1 ∧
    (getStructFieldForKey
      [.mk (bs "A") (bs "x") true false (.tInt 64),
       .mk (bs "B") (bs "x") true false (.tInt 64)] (bs "x")).map Prod.fst ≠
      some 0 ∧
    unmarshal (bs "d1:xi7ee")
      (.tStruct [.mk (bs "A") (bs "x") true false (.tInt 64),
                 .mk (bs "B") (bs "x") true false (.tInt 64)]) =
      .ok (.vStruct
        [.mk (bs "A") (bs "x") true false (.tInt 64),
         .mk (bs "B") (bs "x") true false (.tInt 64)]
        [.vInt 64 0, .vInt 64 7]) :=
  ⟨rfl, by decide, rfl⟩

/-- C1 (failing input): the encoder turns `[]int~1,2,3~` into
`li1ei2ei3ee`, but decoding that back into a fresh `[]int` stops after the
first element (the slice loop of `parseList` breaks when a value was
parsed), so the round trip returns `[1]`, not the original three-element
slice. -/
theorem c1_roundtrip_failure :
    Marshal (.vSlice (.tInt 64) (some [.vInt 64 1, .vInt 64 2, .vInt 64 3])) =
      .ok (bs "li1ei2ei3ee") ∧
    unmarshal (bs "li1ei2ei3ee") (.tSlice (.tInt 64)) =
      .ok (.vSlice (.tInt 64) (some [.vInt 64 1])) ∧
    [GoValue.vInt 64 1].length ≠
      [GoValue.vInt 64 1, .vInt 64 2, .vInt 64 3].length :=
  ⟨rfl, rfl, by decide⟩

/-- C3 (failing input): decoding the three-element list `li1ei2ei3ee` into
an `[]int` target yields the one-element slice `[1]` (the loop breaks as
soon as `parseValue` reports a parsed value instead of a terminator), and
decoding the empty list `le` fails outright because after consuming the
terminator the loop keeps reading past the end of the input. -/
theorem c3_list_decode_stops_after_first :
    unmarshal (bs "li1ei2ei3ee") (.tSlice (.tInt 64)) =
      .ok (.vSlice (.tInt 64) (some [.vInt 64 1])) ∧
    unmarshal (bs "le") (.tSlice (.tInt 64)) = .error .syntaxEOF :=
  ⟨rfl, rfl⟩

theorem parseValue_terminator (f : Nat) (t : GoType) (cur : GoValue)
    (rest : List Nat) :
    ∃ v, parseValue (f + 2) t cur (101 :: rest) = .ok (false, v, rest) := by
  cases t <;> exact ⟨_, rfl⟩

/-- C9: for every target shape, `Unmarshal` on input whose first byte is
the terminator `e` fails with the "unexpected `e`" syntax error: the
dispatch signals `false` upward before looking at the target, and the
outermost caller turns that into a syntax error. -/
theorem c9_unexpected_terminator (t : GoType) (rest : List Nat) :
    unmarshal (101 :: rest) t = .error .syntaxUnexpectedE := by
  unfold unmarshal
  have h1 : 4 * (101 :: rest).length + 8 = 4 * rest.length + 10 + 2 := by
    simp [List.length_cons]
    omega
  rw [h1]
  obtain ⟨v, hv⟩ := parseValue_terminator (4 * rest.length + 10) t (zeroValue t) rest
  rw [hv]
  rfl

theorem readUntil_append (sep : Nat) (payload rest : List Nat)
    (h : sep ∉ payload) :
    readUntil sep (payload ++ sep :: rest) = .ok (payload, rest) := by
  induction payload with
  | nil => simp [readUntil]
  | cons b bl ih =>
    have hb : ¬b = sep := fun hc => h (hc ▸ List.mem_cons_self b bl)
    have hs : sep ∉ bl := fun hc => h (List.mem_cons_of_mem b hc)
    rw [List.cons_append, readUntil, if_neg hb, ih hs]

/-- C6: decoding a bencode integer into a fixed-width signed or unsigned
target succeeds storing the value exactly when the payload parses under
Go's decimal rules (optional sign for signed targets, none for unsigned)
to a value representable in the target's width, and fails with the
type-mismatch error otherwise; in particular `i-5e` into any unsigned
width fails. -/
theorem c6_integer_width_checks :
    (∀ (w : Nat) (payload rest : List Nat) (cur : GoValue) (n : Int),
      101 ∉ payload → goParseInt64 payload = some n →
      -((2 : Int) ^ (w - 1)) ≤ n → n < (2 : Int) ^ (w - 1) →
      parseInteger (.tInt w) cur (payload ++ 101 :: rest) = .ok (.vInt w n, rest)) ∧
    (∀ (w : Nat) (payload rest : List Nat) (cur : GoValue),
      101 ∉ payload →
      (goParseInt64 payload = none ∨
        ∃ n, goParseInt64 payload = some n ∧
          (n < -((2 : Int) ^ (w - 1)) ∨ (2 : Int) ^ (w - 1) ≤ n)) →
      parseInteger (.tInt w) cur (payload ++ 101 :: rest) =
        .error .cannotUnmarshal) ∧
    (∀ (w : Nat) (payload rest : List Nat) (cur : GoValue) (n : Nat),
      101 ∉ payload → goParseUint64 payload = some n → n < 2 ^ w →
      parseInteger (.tUint w) cur (payload ++ 101 :: rest) = .ok (.vUint w n, rest)) ∧
    (∀ (w : Nat) (payload rest : List Nat) (cur : GoValue),
      101 ∉ payload →
      (goParseUint64 payload = none ∨
        ∃ n, goParseUint64 payload = some n ∧ 2 ^ w ≤ n) →
      parseInteger (.tUint w) cur (payload ++ 101 :: rest) =
        .error .cannotUnmarshal) ∧
    (∀ w : Nat, unmarshal (bs "i-5e") (.tUint w) = .error .cannotUnmarshal) := by
  refine ⟨?_, ?_, ?_, ?_, fun w => rfl⟩
  · intro w payload rest cur n hmem hparse hlow hhigh
    unfold parseInteger
    rw [readUntil_append 101 payload rest hmem]
    simp only [hparse]
    rw [if_neg (by rw [not_or]; exact ⟨not_lt.mpr hlow, not_le.mpr hhigh⟩)]
  · intro w payload rest cur hmem hbad
    unfold parseInteger
    rw [readUntil_append 101 payload rest hmem]
    rcases hbad with hnone | ⟨n, hsome, hover⟩
    · simp only [hnone]
    · simp only [hsome]
      rw [if_pos hover]
  · intro w payload rest cur n hmem hparse hlt
    unfold parseInteger
    rw [readUntil_append 101 payload rest hmem]
    simp only [hparse]
    rw [if_neg (not_le.mpr hlt)]
  · intro w payload rest cur hmem hbad
    unfold parseInteger
    rw [readUntil_append 101 payload rest hmem]
    rcases hbad with hnone | ⟨n, hsome, hover⟩
    · simp only [hnone]
    · simp only [hsome]
      rw [if_pos hover]

/-- C6 (witness): payload `1000` is within `uint16`, so it decodes into a
`uint16` target. -/
theorem c6_integer_width_checks_witness :
    parseInteger (.tUint 16) (.vUint 16 0) (bs "1000" ++ 101 :: []) =
      .ok (.vUint 16 1000, []) :=
  c6_integer_width_checks.2.2.1 16 (bs "1000") [] (.vUint 16 0) 1000
    (by decide) (by decide) (by decide)

/-- C4 (counterexample): decoding a 3-byte string into a `[2]byte` target
**succeeds** (no length check — `reflect.Copy` copies the overlap), and so
does decoding a 1-byte string into `[3]byte`; the claim's "fails whenever
the length differs" is false in both directions. -/
theorem c4_length_mismatch_no_error :
    unmarshal (bs "3:abc") (.tArray 2 (.tUint 8)) =
      .ok (.vArray (.tUint 8) [.vUint 8 97, .vUint 8 98]) ∧
    unmarshal (bs "1:a") (.tArray 3 (.tUint 8)) =
      .ok (.vArray (.tUint 8) [.vUint 8 97, .vUint 8 0, .vUint 8 0]) :=
  ⟨rfl, rfl⟩

/-- C4 (amended): decoding a byte string into a fixed-size byte-array
target always succeeds (given a well-formed length prefix and enough input
bytes): the first `min(capacity, length)` bytes are copied, longer inputs
are truncated and shorter ones leave the remaining slots at their previous
values.  No length-mismatch error exists. -/
theorem c4_byte_array_copies_overlap (n : Nat) (lenB data rest : List Nat)
    (olds : List GoValue) (hmem : 58 ∉ lenB)
    (hparse : goParseInt64 lenB = some (data.length : Int)) :
    parseByteString (.tArray n (.tUint 8)) (.vArray (.tUint 8) olds)
      (lenB ++ 58 :: (data ++ rest)) =
      .ok (.vArray (.tUint 8) (arrayCopy olds data), rest) := by
  unfold parseByteString
  rw [readUntil_append 58 lenB _ hmem]
  simp only [hparse]
  rw [if_neg (not_lt.mpr (Int.natCast_nonneg data.length))]
  simp only [Int.toNat_natCast]
  rw [if_neg (by rw [List.length_append]; omega)]
  rw [List.take_left, List.drop_left]
  rfl

/-- C4 (witness): the amended theorem at the concrete mismatching input
`3:abc` into `[2]byte`. -/
theorem c4_byte_array_copies_overlap_witness :
    parseByteString (.tArray 2 (.tUint 8))
      (.vArray (.tUint 8) [.vUint 8 0, .vUint 8 0])
      (bs "3" ++ 58 :: (bs "abc" ++ [])) =
      .ok (.vArray (.tUint 8)
        (arrayCopy [.vUint 8 0, .vUint 8 0] (bs "abc")), []) :=
  c4_byte_array_copies_overlap 2 (bs "3") (bs "abc") []
    [.vUint 8 0, .vUint 8 0] (by decide) (by decide)

theorem parseByteString_string (cur : GoValue) (lenB key rest : List Nat)
    (hmem : 58 ∉ lenB) (hparse : goParseInt64 lenB = some (key.length : Int)) :
    parseByteString .tString cur (lenB ++ 58 :: (key ++ rest)) =
      .ok (.vString key, rest) := by
  unfold parseByteString
  rw [readUntil_append 58 lenB _ hmem]
  simp only [hparse]
  rw [if_neg (not_lt.mpr (Int.natCast_nonneg key.length))]
  simp only [Int.toNat_natCast]
  rw [if_neg (by rw [List.length_append]; omega)]
  rw [List.take_left, List.drop_left]

theorem not_mem_58_of_all_digits {lenB : List Nat}
    (hdig : lenB.all isDigit = true) : 58 ∉ lenB := by
  intro hmem
  have := List.all_eq_true.mp hdig 58 hmem
  simp [isDigit] at this

theorem parseValue_key (f : Nat) (cur : GoValue) (lenB key rest : List Nat)
    (hne : lenB ≠ []) (hdig : lenB.all isDigit = true)
    (hparse : goParseInt64 lenB = some (key.length : Int)) :
    parseValue (f + 2) .tString cur (lenB ++ 58 :: (key ++ rest)) =
      .ok (true, .vString key, rest) := by
  cases lenB with
  | nil => exact absurd rfl hne
  | cons d lenB2 =>
    have hd : isDigit d = true := List.all_eq_true.mp hdig d (List.mem_cons_self _ _)
    have harith : 48 ≤ d ∧ d ≤ 57 := by simpa [isDigit] using hd
    show parseValueB (f + 1) .tString cur ((d :: lenB2) ++ 58 :: (key ++ rest)) = _
    rw [List.cons_append, parseValueB]
    rw [if_neg (by omega : ¬d = 101), if_neg (by omega : ¬d = 100),
      if_neg (by omega : ¬d = 108), if_neg (by omega : ¬d = 105), if_pos hd,
      ← List.cons_append,
      parseByteString_string cur (d :: lenB2) key rest
        (not_mem_58_of_all_digits hdig) hparse]

/-- C8: decoding a dict into a named-record target fails as soon as a key
matches no slot of the record or targets a non-exported slot (the
`newError` raised by `parseDict`'s struct case); in particular decoding
`d3:fooi1e3:bari2ee` into a record whose only field is `foo` fails. -/
theorem c8_unknown_key_fatal :
    (∀ (f : Nat) (fields : List GoField) (cur : GoValue)
       (lenB key rest : List Nat),
      lenB ≠ [] → lenB.all isDigit = true →
      goParseInt64 lenB = some (key.length : Int) →
      (getStructFieldForKey fields key = none ∨
        ∃ i sf, getStructFieldForKey fields key = some (i, sf) ∧
          sf.exported = false) →
      parseDictLoop (f + 3) true (.tStruct fields) cur
        (lenB ++ 58 :: (key ++ rest)) = .error .unknownField) ∧
    unmarshal (bs "d3:fooi1e3:bari2ee")
      (.tStruct [.mk (bs "Foo") (bs "foo") true false (.tInt 64)]) =
      .error .unknownField := by
  refine ⟨?_, rfl⟩
  intro f fields cur lenB key rest hne hdig hparse hl
  rw [parseDictLoop, parseValue_key f (.vString []) lenB key rest hne hdig hparse]
  simp only [stringBytes, Bool.not_true]
  rcases hl with hnone | ⟨i, sf, hsome, hexp⟩
  · simp only [hnone]
    rfl
  · simp only [hsome, hexp]
    rfl

/-- C8 (witness): the universal conjunct at the concrete key `bar` against
the single-field record `foo`. -/
theorem c8_unknown_key_fatal_witness :
    parseDictLoop (0 + 3) true
      (.tStruct [.mk (bs "Foo") (bs "foo") true false (.tInt 64)])
      (zeroValue (.tStruct [.mk (bs "Foo") (bs "foo") true false (.tInt 64)]))
      (bs "3" ++ 58 :: (bs "bar" ++ [])) = .error .unknownField :=
  c8_unknown_key_fatal.1 0 _ _ (bs "3") (bs "bar") [] (by decide) (by decide)
    (by decide) (Or.inl rfl)

theorem encMeasure_pos : ∀ v : GoValue, 1 ≤ encMeasure v
  | .vString _ => by simp only [encMeasure]; omega
  | .vBool _ => by simp only [encMeasure]; omega
  | .vInt _ _ => by simp only [encMeasure]; omega
  | .vUint _ _ => by simp only [encMeasure]; omega
  | .vSlice _ none => by simp only [encMeasure]; omega
  | .vSlice _ (some _) => by simp only [encMeasure]; omega
  | .vArray _ _ => by simp only [encMeasure]; omega
  | .vMap _ none => by simp only [encMeasure]; omega
  | .vMap _ (some _) => by simp only [encMeasure]; omega
  | .vStruct _ _ => by simp only [encMeasure]; omega
  | .vIface none => by simp only [encMeasure]; omega
  | .vIface (some _) => by simp only [encMeasure]; omega
  | .vPtr _ none => by simp only [encMeasure]; omega
  | .vPtr _ (some _) => by simp only [encMeasure]; omega

/-- C7: in a named-record, a field tagged `omitempty` whose value is empty
under the recursive emptiness test contributes nothing to the output (for
a single-field record the output is exactly `de`, whatever the field and
the empty value are), while a field without that option is always emitted,
even when its value is zero; in particular the tagged
`struct A int (omitempty)` with `A = 0` encodes to `de` and the untagged
one to `d1:Ai0ee`. -/
theorem c7_omitempty :
    (∀ (f : GoField) (v : GoValue),
      f.exported = true → f.anonymous = false →
      tagIgnore (parseTag f.tag) = false →
      tagOmitEmpty (parseTag f.tag) = true →
      isEmptyValue v = true →
      Marshal (.vStruct [f] [v]) = .ok (bs "de")) ∧
    (∀ (f : GoField) (tg : List Nat) (i : Int),
      f.exported = true → f.anonymous = false →
      tagIgnore (parseTag f.tag) = false →
      tagOmitEmpty (parseTag f.tag) = false →
      (if tagKey (parseTag f.tag) ≠ [] then tagKey (parseTag f.tag)
       else f.name) = tg →
      Marshal (.vStruct [f] [.vInt 64 i]) =
        .ok (100 :: (((natDec tg.length ++ 58 :: tg) ++
          ((105 :: (intDec i ++ [101])) ++ [])) ++ [101]))) ∧
    Marshal (.vStruct [.mk (bs "A") (bs ",omitempty") true false (.tInt 64)]
      [.vInt 64 0]) = .ok (bs "de") ∧
    Marshal (.vStruct [.mk (bs "A") (bs "") true false (.tInt 64)]
      [.vInt 64 0]) = .ok (bs "d1:Ai0ee") := by
  refine ⟨?_, ?_, rfl, rfl⟩
  · intro f v hexp hanon hig homit hempty
    obtain ⟨k, hk⟩ : ∃ k, encMeasure v = k + 1 :=
      ⟨encMeasure v - 1, by have := encMeasure_pos v; omega⟩
    have hef : encodeFields [f] =
        [⟨0, if tagKey (parseTag f.tag) ≠ [] then tagKey (parseTag f.tag)
             else f.name, true⟩] := by
      simp [encodeFields, List.enum, List.enumFrom, hexp, hanon, hig, homit,
        List.insertionSort]
    have hfm : encMeasure (.vStruct [f] [v]) = (k + 1) + 1 + 1 := by
      simp only [encMeasure, encMeasureList]
      omega
    unfold Marshal
    rw [hfm]
    simp only [encodeValue, hef, encodeSFields, List.getD, List.get?_cons_zero,
      Option.getD_some, hempty, Bool.true_and, if_true]
    rfl
  · intro f tg i hexp hanon hig homit htg
    have hef : encodeFields [f] = [⟨0, tg, false⟩] := by
      simp [encodeFields, List.enum, List.enumFrom, hexp, hanon, hig, homit,
        List.insertionSort]
      rw [← htg]
      by_cases h : tagKey (parseTag f.tag) = [] <;> simp [h]
    have hfm : encMeasure (.vStruct [f] [.vInt 64 i]) = 1 + 1 + 1 := by
      simp only [encMeasure, encMeasureList]
    unfold Marshal
    rw [hfm]
    simp only [encodeValue, hef, encodeSFields, List.getD, List.get?_cons_zero,
      Option.getD_some, Bool.false_and, if_false]
    rfl

/-- C7 (witness): the omission conjunct applied to the concrete tagged
field with value 0, and the emission conjunct to the untagged field. -/
theorem c7_omitempty_witness :
    Marshal (.vStruct [.mk (bs "A") (bs ",omitempty") true false (.tInt 64)]
      [.vInt 64 0]) = .ok (bs "de") :=
  c7_omitempty.1 (.mk (bs "A") (bs ",omitempty") true false (.tInt 64))
    (.vInt 64 0) rfl rfl (by decide) (by decide) rfl

theorem readUntil_ext {sep : Nat} {s a r : List Nat}
    (h : readUntil sep s = .ok (a, r)) (extra : List Nat) :
    readUntil sep (s ++ extra) = .ok (a, r ++ extra) := by
  induction s generalizing a with
  | nil => rw [readUntil] at h; cases h
  | cons b bl ih =>
    rw [readUntil] at h
    rw [List.cons_append, readUntil]
    by_cases hb : b = sep
    · rw [if_pos hb] at h
      rw [if_pos hb]
      cases h
      rfl
    · rw [if_neg hb] at h
      rw [if_neg hb]
      cases hru : readUntil sep bl with
      | error e => rw [hru] at h; cases h
      | ok pr =>
        obtain ⟨a2, r2⟩ := pr
        rw [hru] at h
        cases h
        rw [ih hru]

theorem parseInteger_ext {t : GoType} {cur : GoValue} {s : List Nat}
    {v : GoValue} {r : List Nat}
    (h : parseInteger t cur s = .ok (v, r)) (extra : List Nat) :
    parseInteger t cur (s ++ extra) = .ok (v, r ++ extra) := by
  unfold parseInteger at h ⊢
  cases hru : readUntil 101 s with
  | error e => rw [hru] at h; simp at h
  | ok pr =>
    obtain ⟨payload, rest⟩ := pr
    rw [hru] at h
    rw [readUntil_ext hru extra]
    cases t <;> (try split at h) <;> (try split at h) <;> (try split at h) <;>
      (try split at h) <;> simp_all

theorem parseByteString_ext {t : GoType} {cur : GoValue} {s : List Nat}
    {v : GoValue} {r : List Nat}
    (h : parseByteString t cur s = .ok (v, r)) (extra : List Nat) :
    parseByteString t cur (s ++ extra) = .ok (v, r ++ extra) := by
  unfold parseByteString at h ⊢
  cases hru : readUntil 58 s with
  | error e => rw [hru] at h; simp at h
  | ok pr =>
    obtain ⟨lenB, rest1⟩ := pr
    rw [hru] at h
    rw [readUntil_ext hru extra]
    cases hgp : goParseInt64 lenB with
    | none => simp only [hgp] at h; cases h
    | some L =>
      simp only [hgp] at h ⊢
      by_cases hL : L < 0
      · rw [if_pos hL] at h; simp at h
      · rw [if_neg hL] at h
        rw [if_neg hL]
        by_cases hlen : rest1.length < L.toNat
        · rw [if_pos hlen] at h; simp at h
        · rw [if_neg hlen] at h
          rw [if_neg (by rw [List.length_append]; omega)]
          have htake : (rest1 ++ extra).take L.toNat = rest1.take L.toNat := by
            rw [List.take_append_eq_append_take,
              show L.toNat - rest1.length = 0 by omega, List.take_zero,
              List.append_nil]
          have hdrop : (rest1 ++ extra).drop L.toNat = rest1.drop L.toNat ++ extra := by
            rw [List.drop_append_eq_append_drop,
              show L.toNat - rest1.length = 0 by omega, List.drop_zero]
          rw [htake, hdrop]
          cases t <;> (try split at h) <;> (try split at h) <;> simp_all

/-- Combined fuel-monotonicity and input-extension property of the decoder:
a successful parse at some fuel stays successful, with the same result, at
any larger fuel and with any bytes appended to the input, the appended
bytes reappearing untouched after the consumed remainder. -/
theorem parse_ext_mono : ∀ f : Nat,
    (∀ (f2 : Nat) (t : GoType) (cur : GoValue) (s extra : List Nat)
       (ok : Bool) (v : GoValue) (r : List Nat), f ≤ f2 →
      parseValue f t cur s = .ok (ok, v, r) →
      parseValue f2 t cur (s ++ extra) = .ok (ok, v, r ++ extra)) ∧
    (∀ (f2 : Nat) (t : GoType) (cur : GoValue) (s extra : List Nat)
       (ok : Bool) (v : GoValue) (r : List Nat), f ≤ f2 →
      parseValueB f t cur s = .ok (ok, v, r) →
      parseValueB f2 t cur (s ++ extra) = .ok (ok, v, r ++ extra)) ∧
    (∀ (f2 : Nat) (t : GoType) (cur : GoValue) (s extra : List Nat)
       (v : GoValue) (r : List Nat), f ≤ f2 →
      parseDict f t cur s = .ok (v, r) →
      parseDict f2 t cur (s ++ extra) = .ok (v, r ++ extra)) ∧
    (∀ (f2 : Nat) (t : GoType) (cur : GoValue) (s extra : List Nat)
       (v : GoValue) (r : List Nat), f ≤ f2 →
      parseList f t cur s = .ok (v, r) →
      parseList f2 t cur (s ++ extra) = .ok (v, r ++ extra)) ∧
    (∀ (f2 : Nat) (e : GoType) (xs : List GoValue) (s extra : List Nat)
       (v : List GoValue) (r : List Nat), f ≤ f2 →
      parseListSlice f e xs s = .ok (v, r) →
      parseListSlice f2 e xs (s ++ extra) = .ok (v, r ++ extra)) ∧
    (∀ (f2 : Nat) (e : GoType) (os : List GoValue) (s extra : List Nat)
       (v : List GoValue) (r : List Nat), f ≤ f2 →
      parseListArray f e os s = .ok (v, r) →
      parseListArray f2 e os (s ++ extra) = .ok (v, r ++ extra)) ∧
    (∀ (f2 : Nat) (canSet : Bool) (t : GoType) (cur : GoValue)
       (s extra : List Nat) (v : GoValue) (r : List Nat), f ≤ f2 →
      parseDictLoop f canSet t cur s = .ok (v, r) →
      parseDictLoop f2 canSet t cur (s ++ extra) = .ok (v, r ++ extra)) := by
  intro f
  induction f with
  | zero =>
    exact ⟨fun _ _ _ _ _ _ _ _ _ h => by simp [parseValue] at h,
           fun _ _ _ _ _ _ _ _ _ h => by simp [parseValueB] at h,
           fun _ _ _ _ _ _ _ _ h => by simp [parseDict] at h,
           fun _ _ _ _ _ _ _ _ h => by simp [parseList] at h,
           fun _ _ _ _ _ _ _ _ h => by simp [parseListSlice] at h,
           fun _ _ _ _ _ _ _ _ h => by simp [parseListArray] at h,
           fun _ _ _ _ _ _ _ _ _ h => by simp [parseDictLoop] at h⟩
  | succ f ih =>
    obtain ⟨ihV, ihB, ihD, ihL, ihLS, ihLA, ihDL⟩ := ih
    refine ⟨?_, ?_, ?_, ?_, ?_, ?_, ?_⟩
    · -- parseValue
      intro f2 t cur s extra ok v r hle h
      cases f2 with
      | zero => omega
      | succ f2 =>
        have hle2 : f ≤ f2 := by omega
        cases t with
        | tPtr e =>
          rw [parseValue] at h
          rw [parseValue]
          cases hpv : parseValueB f e (ptrElemValue e cur) s with
          | error er => rw [hpv] at h; cases h
          | ok triple =>
            obtain ⟨ok1, v1, rest1⟩ := triple
            rw [hpv] at h
            cases h
            rw [ihB f2 e (ptrElemValue e cur) s extra _ _ _ hle2 hpv]
        | tString => exact ihB f2 _ _ _ _ _ _ _ hle2 h
        | tBool => exact ihB f2 _ _ _ _ _ _ _ hle2 h
        | tInt w => exact ihB f2 _ _ _ _ _ _ _ hle2 h
        | tUint w => exact ihB f2 _ _ _ _ _ _ _ hle2 h
        | tSlice e => exact ihB f2 _ _ _ _ _ _ _ hle2 h
        | tArray n e => exact ihB f2 _ _ _ _ _ _ _ hle2 h
        | tMap e => exact ihB f2 _ _ _ _ _ _ _ hle2 h
        | tStruct fs => exact ihB f2 _ _ _ _ _ _ _ hle2 h
        | tIface => exact ihB f2 _ _ _ _ _ _ _ hle2 h
    · -- parseValueB
      intro f2 t cur s extra ok v r hle h
      cases f2 with
      | zero => omega
      | succ f2 =>
        have hle2 : f ≤ f2 := by omega
        cases s with
        | nil => rw [parseValueB] at h; cases h
        | cons b rest =>
          rw [parseValueB] at h
          rw [List.cons_append, parseValueB]
          by_cases h101 : b = 101
          · rw [if_pos h101] at h
            rw [if_pos h101]
            cases h
            rfl
          · rw [if_neg h101] at h
            rw [if_neg h101]
            by_cases h100 : b = 100
            · rw [if_pos h100] at h
              rw [if_pos h100]
              cases hpd : parseDict f t cur rest with
              | error e => rw [hpd] at h; cases h
              | ok pr =>
                obtain ⟨v1, r1⟩ := pr
                rw [hpd] at h
                cases h
                rw [ihD f2 t cur rest extra _ _ hle2 hpd]
            · rw [if_neg h100] at h
              rw [if_neg h100]
              by_cases h108 : b = 108
              · rw [if_pos h108] at h
                rw [if_pos h108]
                cases hpl : parseList f t cur rest with
                | error e => rw [hpl] at h; cases h
                | ok pr =>
                  obtain ⟨v1, r1⟩ := pr
                  rw [hpl] at h
                  cases h
                  rw [ihL f2 t cur rest extra _ _ hle2 hpl]
              · rw [if_neg h108] at h
                rw [if_neg h108]
                by_cases h105 : b = 105
                · rw [if_pos h105] at h
                  rw [if_pos h105]
                  cases hpi : parseInteger t cur rest with
                  | error e => rw [hpi] at h; cases h
                  | ok pr =>
                    obtain ⟨v1, r1⟩ := pr
                    rw [hpi] at h
                    cases h
                    rw [parseInteger_ext hpi extra]
                · rw [if_neg h105] at h
                  rw [if_neg h105]
                  by_cases hdig : isDigit b = true
                  · rw [if_pos hdig] at h
                    rw [if_pos hdig]
                    cases hpb : parseByteString t cur (b :: rest) with
                    | error e => rw [hpb] at h; cases h
                    | ok pr =>
                      obtain ⟨v1, r1⟩ := pr
                      rw [hpb] at h
                      cases h
                      have := parseByteString_ext hpb extra
                      rw [List.cons_append] at this
                      rw [this]
                  · rw [if_neg hdig] at h
                    cases h
    · -- parseDict
      intro f2 t cur s extra v r hle h
      cases f2 with
      | zero => omega
      | succ f2 =>
        have hle2 : f ≤ f2 := by omega
        cases t with
        | tIface =>
          rw [parseDict] at h
          rw [parseDict]
          cases hdl : parseDictLoop f false (.tMap .tIface) (.vMap .tIface none) s with
          | error e => rw [hdl] at h; cases h
          | ok pr =>
            obtain ⟨m, rest⟩ := pr
            rw [hdl] at h
            cases h
            rw [ihDL f2 false (.tMap .tIface) (.vMap .tIface none) s extra _ _ hle2 hdl]
        | tString => exact ihDL f2 true _ _ _ _ _ _ hle2 h
        | tBool => exact ihDL f2 true _ _ _ _ _ _ hle2 h
        | tInt w => exact ihDL f2 true _ _ _ _ _ _ hle2 h
        | tUint w => exact ihDL f2 true _ _ _ _ _ _ hle2 h
        | tSlice e => exact ihDL f2 true _ _ _ _ _ _ hle2 h
        | tArray n e => exact ihDL f2 true _ _ _ _ _ _ hle2 h
        | tMap e => exact ihDL f2 true _ _ _ _ _ _ hle2 h
        | tStruct fs => exact ihDL f2 true _ _ _ _ _ _ hle2 h
        | tPtr e => exact ihDL f2 true _ _ _ _ _ _ hle2 h
    · -- parseList
      intro f2 t cur s extra v r hle h
      cases f2 with
      | zero => omega
      | succ f2 =>
        have hle2 : f ≤ f2 := by omega
        cases t with
        | tSlice e =>
          rw [parseList] at h
          rw [parseList]
          cases hls : parseListSlice f e [] s with
          | error e2 => rw [hls] at h; cases h
          | ok pr =>
            obtain ⟨xs, rest⟩ := pr
            rw [hls] at h
            cases h
            rw [ihLS f2 e [] s extra _ _ hle2 hls]
        | tArray n e =>
          rw [parseList] at h
          rw [parseList]
          cases hla : parseListArray f e (arrElems cur) s with
          | error e2 => rw [hla] at h; cases h
          | ok pr =>
            obtain ⟨xs, rest⟩ := pr
            rw [hla] at h
            cases h
            rw [ihLA f2 e (arrElems cur) s extra _ _ hle2 hla]
        | tIface => rw [parseList] at h; cases h
        | tString => cases h; rfl
        | tBool => cases h; rfl
        | tInt w => cases h; rfl
        | tUint w => cases h; rfl
        | tMap e => cases h; rfl
        | tStruct fs => cases h; rfl
        | tPtr e => cases h; rfl
    · -- parseListSlice
      intro f2 e xs s extra v r hle h
      cases f2 with
      | zero => omega
      | succ f2 =>
        have hle2 : f ≤ f2 := by omega
        rw [parseListSlice] at h
        rw [parseListSlice]
        cases hpv : parseValue f e (zeroValue e) s with
        | error er => rw [hpv] at h; cases h
        | ok triple =>
          obtain ⟨ok1, v1, rest1⟩ := triple
          rw [hpv] at h
          rw [ihV f2 e (zeroValue e) s extra ok1 v1 rest1 hle2 hpv]
          cases ok1 with
          | true => cases h; rfl
          | false => exact ihLS f2 e (xs ++ [v1]) rest1 extra v r hle2 h
    · -- parseListArray
      intro f2 e os s extra v r hle h
      cases f2 with
      | zero => omega
      | succ f2 =>
        have hle2 : f ≤ f2 := by omega
        cases os with
        | nil => cases h; rfl
        | cons o os =>
          rw [parseListArray] at h
          rw [parseListArray]
          cases hpv : parseValue f e o s with
          | error er => rw [hpv] at h; cases h
          | ok triple =>
            obtain ⟨ok1, v1, rest1⟩ := triple
            rw [hpv] at h
            rw [ihV f2 e o s extra ok1 v1 rest1 hle2 hpv]
            replace h : (match parseListArray f e os rest1 with
              | .error er => Except.error er
              | .ok (vs, rest2) =>
                Except.ok ((if ok1 = true then v1 else zeroValue e) :: vs, rest2)) =
                Except.ok (v, r) := h
            show (match parseListArray f2 e os (rest1 ++ extra) with
              | .error er => Except.error er
              | .ok (vs, rest2) =>
                Except.ok ((if ok1 = true then v1 else zeroValue e) :: vs, rest2)) =
                Except.ok (v, r ++ extra)
            cases hla : parseListArray f e os rest1 with
            | error er => rw [hla] at h; cases h
            | ok pr =>
              obtain ⟨vs, rest2⟩ := pr
              rw [hla] at h
              cases h
              rw [ihLA f2 e os rest1 extra _ _ hle2 hla]
    · -- parseDictLoop
      intro f2 canSet t cur s extra v r hle h
      cases f2 with
      | zero => omega
      | succ f2 =>
        have hle2 : f ≤ f2 := by omega
        rw [parseDictLoop] at h
        rw [parseDictLoop]
        cases hpk : parseValue f .tString (.vString []) s with
        | error er => rw [hpk] at h; cases h
        | ok triple =>
          obtain ⟨okK, kv, rest1⟩ := triple
          rw [hpk] at h
          rw [ihV f2 .tString (.vString []) s extra okK kv rest1 hle2 hpk]
          cases okK with
          | false => cases h; rfl
          | true =>
            cases t with
            | tMap e =>
              replace h : (match parseValue f e (zeroValue e) rest1 with
                | .error er =>
                  Except.error (BErr.parseFieldError (stringBytes kv) er)
                | .ok (okV, val, rest2) =>
                  if !okV then Except.error (BErr.missingValue (stringBytes kv))
                  else
                    match mapEntriesOf cur with
                    | none =>
                      if canSet then
                        parseDictLoop f canSet (.tMap e)
                          (.vMap e (some (goMapPut [] (stringBytes kv) val))) rest2
                      else Except.error BErr.reflectUnaddressable
                    | some m =>
                      parseDictLoop f canSet (.tMap e)
                        (.vMap e (some (goMapPut m (stringBytes kv) val))) rest2) =
                  Except.ok (v, r) := h
              show (match parseValue f2 e (zeroValue e) (rest1 ++ extra) with
                | .error er =>
                  Except.error (BErr.parseFieldError (stringBytes kv) er)
                | .ok (okV, val, rest2) =>
                  if !okV then Except.error (BErr.missingValue (stringBytes kv))
                  else
                    match mapEntriesOf cur with
                    | none =>
                      if canSet then
                        parseDictLoop f2 canSet (.tMap e)
                          (.vMap e (some (goMapPut [] (stringBytes kv) val))) rest2
                      else Except.error BErr.reflectUnaddressable
                    | some m =>
                      parseDictLoop f2 canSet (.tMap e)
                        (.vMap e (some (goMapPut m (stringBytes kv) val))) rest2) =
                  Except.ok (v, r ++ extra)
              cases hpv : parseValue f e (zeroValue e) rest1 with
              | error er => rw [hpv] at h; cases h
              | ok triple2 =>
                obtain ⟨okV, val, rest2⟩ := triple2
                rw [hpv] at h
                rw [ihV f2 e (zeroValue e) rest1 extra okV val rest2 hle2 hpv]
                cases okV with
                | false => cases h
                | true =>
                  cases hme : mapEntriesOf cur with
                  | none =>
                    rw [hme] at h
                    cases canSet with
                    | false => cases h
                    | true =>
                      exact ihDL f2 true (.tMap e)
                        (.vMap e (some (goMapPut [] (stringBytes kv) val)))
                        rest2 extra v r hle2 h
                  | some m =>
                    rw [hme] at h
                    exact ihDL f2 canSet (.tMap e)
                      (.vMap e (some (goMapPut m (stringBytes kv) val)))
                      rest2 extra v r hle2 h
            | tStruct fields =>
              replace h : (match getStructFieldForKey fields (stringBytes kv) with
                | none => Except.error BErr.unknownField
                | some (i, sf) =>
                  if !sf.exported then Except.error BErr.unknownField
                  else
                    match parseValue f sf.ty
                        ((structValsOf cur).getD i (.vBool false)) rest1 with
                    | .error er =>
                      Except.error (BErr.parseFieldError (stringBytes kv) er)
                    | .ok (okV, val, rest2) =>
                      if !okV then
                        Except.error (BErr.missingValue (stringBytes kv))
                      else
                        parseDictLoop f canSet (.tStruct fields)
                          (setStructVal cur i val) rest2) = Except.ok (v, r) := h
              show (match getStructFieldForKey fields (stringBytes kv) with
                | none => Except.error BErr.unknownField
                | some (i, sf) =>
                  if !sf.exported then Except.error BErr.unknownField
                  else
                    match parseValue f2 sf.ty
                        ((structValsOf cur).getD i (.vBool false)) (rest1 ++ extra) with
                    | .error er =>
                      Except.error (BErr.parseFieldError (stringBytes kv) er)
                    | .ok (okV, val, rest2) =>
                      if !okV then
                        Except.error (BErr.missingValue (stringBytes kv))
                      else
                        parseDictLoop f2 canSet (.tStruct fields)
                          (setStructVal cur i val) rest2) = Except.ok (v, r ++ extra)
              cases hgf : getStructFieldForKey fields (stringBytes kv) with
              | none => rw [hgf] at h; cases h
              | some pr =>
                obtain ⟨i, sf⟩ := pr
                rw [hgf] at h
                replace h : (if !sf.exported then Except.error BErr.unknownField
                  else
                    match parseValue f sf.ty
                        ((structValsOf cur).getD i (.vBool false)) rest1 with
                    | .error er =>
                      Except.error (BErr.parseFieldError (stringBytes kv) er)
                    | .ok (okV, val, rest2) =>
                      if !okV then
                        Except.error (BErr.missingValue (stringBytes kv))
                      else
                        parseDictLoop f canSet (.tStruct fields)
                          (setStructVal cur i val) rest2) = Except.ok (v, r) := h
                show (if !sf.exported then Except.error BErr.unknownField
                  else
                    match parseValue f2 sf.ty
                        ((structValsOf cur).getD i (.vBool false)) (rest1 ++ extra) with
                    | .error er =>
                      Except.error (BErr.parseFieldError (stringBytes kv) er)
                    | .ok (okV, val, rest2) =>
                      if !okV then
                        Except.error (BErr.missingValue (stringBytes kv))
                      else
                        parseDictLoop f2 canSet (.tStruct fields)
                          (setStructVal cur i val) rest2) = Except.ok (v, r ++ extra)
                cases hexp : sf.exported with
                | false => rw [hexp] at h; cases h
                | true =>
                  rw [hexp] at h
                  cases hpv : parseValue f sf.ty
                      ((structValsOf cur).getD i (.vBool false)) rest1 with
                  | error er => rw [hpv] at h; cases h
                  | ok triple2 =>
                    obtain ⟨okV, val, rest2⟩ := triple2
                    rw [hpv] at h
                    rw [ihV f2 sf.ty ((structValsOf cur).getD i (.vBool false))
                      rest1 extra okV val rest2 hle2 hpv]
                    cases okV with
                    | false => cases h
                    | true =>
                      exact ihDL f2 canSet (.tStruct fields)
                        (setStructVal cur i val) rest2 extra v r hle2 h
            | tString => exact ihDL f2 canSet _ cur rest1 extra v r hle2 h
            | tBool => exact ihDL f2 canSet _ cur rest1 extra v r hle2 h
            | tInt w => exact ihDL f2 canSet _ cur rest1 extra v r hle2 h
            | tUint w => exact ihDL f2 canSet _ cur rest1 extra v r hle2 h
            | tSlice e => exact ihDL f2 canSet _ cur rest1 extra v r hle2 h
            | tArray n e => exact ihDL f2 canSet _ cur rest1 extra v r hle2 h
            | tIface => exact ihDL f2 canSet _ cur rest1 extra v r hle2 h
            | tPtr e => exact ihDL f2 canSet _ cur rest1 extra v r hle2 h

/-- C10: `Unmarshal` never looks past the value it consumes — if decoding
`data` into a target of type `t` succeeds with value `v`, then decoding
`data ++ extra` succeeds with the same `v` for arbitrary trailing bytes
`extra` (trailing garbage is silently ignored, not an error). -/
theorem c10_trailing_bytes_ignored (data : List Nat) (t : GoType)
    (extra : List Nat) (v : GoValue)
    (h : unmarshal data t = .ok v) :
    unmarshal (data ++ extra) t = .ok v := by
  unfold unmarshal at h ⊢
  cases hpv : parseValue (4 * data.length + 8) t (zeroValue t) data with
  | error e => rw [hpv] at h; cases h
  | ok triple =>
    obtain ⟨ok, v1, rest⟩ := triple
    rw [hpv] at h
    cases ok with
    | false => cases h
    | true =>
      cases h
      have hle : 4 * data.length + 8 ≤ 4 * (data ++ extra).length + 8 := by
        rw [List.length_append]; omega
      rw [(parse_ext_mono (4 * data.length + 8)).1 (4 * (data ++ extra).length + 8)
        t (zeroValue t) data extra true _ rest hle hpv]
      rfl

/-- C10 (witness): `i5e` decodes to 5; appending `xyz` neither fails nor
changes the result. -/
theorem c10_trailing_bytes_ignored_witness :
    unmarshal (bs "i5e" ++ bs "xyz") (.tInt 64) = .ok (.vInt 64 5) :=
  c10_trailing_bytes_ignored (bs "i5e") (.tInt 64) (bs "xyz") (.vInt 64 5) rfl
